import Mathlib

/-!
Shallow embedding of the `hash-table` repository (source files
`initialized-array.hpp` and `hash-table.hpp`): a lazily-initialized array
(`InitArr::InitializedArray`) and a double-hashing hash table
(`HTable::HashTable`), together with theorems settling the claims of the
specification.

Modelling conventions:
* C++ raw heap buffers (`new Value[length]`) are modelled as total functions
  `Int → α`.  Freshly allocated memory holds arbitrary ("garbage") values, so
  constructors take the initial buffer contents as explicit parameters.
* C++ `%` and `/` on signed integers truncate towards zero; they are modelled
  by `Int.tmod` and `Int.tdiv`.
* `throw std::out_of_range` and undefined behaviour (null-pointer
  dereference) are modelled by `Except.error ()`.
* Every loop/recursion carries an explicit `fuel : Nat` that decreases at
  each iteration; running out of fuel is `Except.error ()`.  Any terminating
  C++ run is reproduced by every sufficiently large fuel, and all recursion
  is structural, so closed runs evaluate inside the kernel.
* The template parameter `Key` is instantiated at `Int` (the specification
  assumes integral keys used via modulo arithmetic), and `Number` at `Int`
  (the default `long long int`).
* The floating-point load-factor tests `total_elements >= size * 0.75` and
  `total_elements < size * 0.25` are exact at the integer magnitudes the
  table reaches, and are modelled by the exact integer comparisons
  `3 * size ≤ 4 * total_elements` and `4 * total_elements < size`;
  `floor(size * 2)` is `size * 2` and `floor(size * 0.5)` is `Int.tdiv size 2`.
-/

namespace InitArr

/-- Pointwise update of a modelled memory buffer. -/
def upd {α : Type} (f : Int → α) (i : Int) (x : α) : Int → α :=
  fun j => if j = i then x else f j

/-- `InitArr::InitializedArray<Value, Number>`: the three buffers, the write
counter `top`, the capacity `length` and the default value (`def` in the
source; renamed `deflt` because `def` is a Lean keyword). -/
structure InitializedArray (Value : Type) where
  values : Int → Value
  short_cuts : Int → Int
  init_indexes : Int → Int
  top : Int
  length : Int
  deflt : Value

variable {V : Type}

/-- `InitializedArray::InitializedArray(Number length, Value def)`: the three
buffers are freshly allocated and uninitialized, so their garbage contents
`gv`, `gs`, `gi` are parameters of the model; `top = 0`. -/
def mkArr (length : Int) (deflt : V) (gv : Int → V) (gs gi : Int → Int) :
    InitializedArray V :=
  { values := gv, short_cuts := gs, init_indexes := gi,
    top := 0, length := length, deflt := deflt }

/-- `InitializedArray::IsInitialized`: bounds-check (throwing
`std::out_of_range`, modelled as `Except.error`), then the double check
against the tracking buffers. -/
def InitializedArray.IsInitialized (a : InitializedArray V) (index : Int) :
    Except Unit Bool :=
  if a.length ≤ index ∨ index < 0 then .error ()
  else if a.top = 0 then .ok false
  else .ok (decide (a.short_cuts index < a.top ∧ 0 ≤ a.short_cuts index ∧
    a.init_indexes (a.short_cuts index) = index))

/-- `InitializedArray::Get`. -/
def InitializedArray.Get (a : InitializedArray V) (index : Int) :
    Except Unit V :=
  match a.IsInitialized index with
  | .error e => .error e
  | .ok b => if b then .ok (a.values index) else .ok a.deflt

/-- `InitializedArray::Set`. -/
def InitializedArray.Set (a : InitializedArray V) (index : Int) (value : V) :
    Except Unit (InitializedArray V) :=
  match a.IsInitialized index with
  | .error e => .error e
  | .ok b =>
    let a' := if b then a else
      { a with init_indexes := upd a.init_indexes a.top index,
               short_cuts := upd a.short_cuts index a.top,
               top := a.top + 1 }
    .ok { a' with values := upd a'.values index value }

/-- `InitializedArray::Default`. -/
def InitializedArray.Default (a : InitializedArray V) : V :=
  a.deflt

/-- `InitializedArray::Length`. -/
def InitializedArray.Length (a : InitializedArray V) : Int :=
  a.length

/-- `InitializedArray::InitializedArray(const InitializedArray &arr)` (copy
constructor): fresh buffers with garbage contents `gv`, `gs`, `gi`, then the
loop `for (i = 0; i < top; i++)` copies the first `top` entries of each of the
three buffers. -/
def copyCtor (arr : InitializedArray V) (gv : Int → V) (gs gi : Int → Int) :
    InitializedArray V :=
  { values := fun i => if 0 ≤ i ∧ i < arr.top then arr.values i else gv i,
    short_cuts := fun i => if 0 ≤ i ∧ i < arr.top then arr.short_cuts i else gs i,
    init_indexes := fun i => if 0 ≤ i ∧ i < arr.top then arr.init_indexes i else gi i,
    top := arr.top, length := arr.length, deflt := arr.deflt }

/-- A client-side sequence of `Set` calls (used to state facts about
arbitrary write histories). -/
def applySets (a : InitializedArray V) : List (Int × V) → Except Unit (InitializedArray V)
  | [] => .ok a
  | (i, v) :: rest =>
    match a.Set i v with
    | .error e => .error e
    | .ok a' => applySets a' rest

/-- The value of the last `Set` to index `j` in a write history (`none` if
`j` was never written). -/
def lastVal : List (Int × V) → Int → Option V
  | [], _ => none
  | (i, v) :: rest, j =>
    match lastVal rest j with
    | some w => some w
    | none => if i = j then some v else none

/-- Relation between a constructor-built array and its abstract contents
`f` (`f j = some v` iff index `j` has been written, `v` being the last value
written there).  The fields record exactly the facts about the tracking
buffers that make `IsInitialized` correct in spite of the garbage held by
freshly allocated memory. -/
structure GoodArr (a : InitializedArray V) (f : Int → Option V) : Prop where
  top_nonneg : 0 ≤ a.top
  dom : ∀ j, f j ≠ none → 0 ≤ j ∧ j < a.length
  val : ∀ j v, f j = some v → a.values j = v
  written_tracked : ∀ j, f j ≠ none →
    0 ≤ a.short_cuts j ∧ a.short_cuts j < a.top ∧
    a.init_indexes (a.short_cuts j) = j
  range_written : ∀ s, 0 ≤ s → s < a.top → f (a.init_indexes s) ≠ none

end InitArr

namespace HTable

/-- `HTable::CELL_STATE` (`EMPTY = 0`, `FULL = 1`). -/
inductive CELL_STATE where
  | EMPTY
  | FULL
  deriving DecidableEq

/-- `HTable::DIRECTION`. -/
inductive DIRECTION where
  | DOWN
  | UP
  deriving DecidableEq

/-- `HTable::HTableCell<Key, Value>` with `Key = Int`. -/
structure HTableCell (Value : Type) where
  key : Int
  value : Value
  state : CELL_STATE
  deriving DecidableEq

/-- `#define INIT_SIZE 7`. -/
def INIT_SIZE : Int := 7

/-- `#define CONST_C 7`. -/
def CONST_C : Int := 7

/-- `HTable::HashTable<Key, Value, Number>` with `Key = Int`, `Number = Int`.
The backing array stores nullable cell pointers, i.e. `Option (HTableCell V)`
with `none` for `NULL`. -/
structure HashTable (Value : Type) where
  elements : InitArr.InitializedArray (Option (HTableCell Value))
  size : Int
  total_elements : Int

variable {V : Type}

/-- A fresh `new InitializedArray<Number, HTableCell<Key, Value> *>(len, NULL)`
allocation as performed by the table.  The garbage contents of the fresh
buffers are fixed (zero/`NULL`) here; this is one concrete memory state, and
`Get`/`Set` never expose unwritten entries of a constructor-built array (see
`C2_lazy_array_default_read`), so table behaviour does not depend on the
choice. -/
def newArr (V : Type) (len : Int) :
    InitArr.InitializedArray (Option (HTableCell V)) :=
  InitArr.mkArr len none (fun _ => none) (fun _ => 0) (fun _ => 0)

/-- The `while (div * div - 2 * div + 1 <= number)` trial-division loop of
`HashTable::IsPrime`, testing divisors `div - 1` and `div + 1` (`6m ± 1`). -/
def isPrimeLoop : Nat → Int → Int → Except Unit Bool
  | 0, _, _ => .error ()
  | fuel + 1, number, d =>
    if d * d - 2 * d + 1 ≤ number then
      if Int.tmod number (d - 1) = 0 ∨ Int.tmod number (d + 1) = 0 then .ok false
      else isPrimeLoop fuel number (d + 6)
    else .ok true

/-- `HashTable::IsPrime`. -/
def IsPrime (fuel : Nat) (number : Int) : Except Unit Bool :=
  if number = 1 ∨ Int.tmod number 2 = 0 ∨ Int.tmod number 3 = 0 then .ok false
  else isPrimeLoop fuel number 6

/-- `HashTable::FindNextPrime`: `while (!IsPrime(++number)) {}`. -/
def FindNextPrime : Nat → Int → Except Unit Int
  | 0, _ => .error ()
  | fuel + 1, number =>
    match IsPrime fuel (number + 1) with
    | .error e => .error e
    | .ok true => .ok (number + 1)
    | .ok false => FindNextPrime fuel (number + 1)

/-- `HashTable::Hash(Key key, Number k)`:
`((key % size) + k * (1 + (key % CONST_C))) % size` with C++ truncating `%`. -/
def HashTable.Hash (t : HashTable V) (key : Int) (k : Int) : Int :=
  Int.tmod (Int.tmod key t.size + k * (1 + Int.tmod key CONST_C)) t.size

/-- The probe loop of `HashTable::FindKey`:
`while (elem && k < this->size) { if (elem->GetKey() == key) break; ... }`.
Returns the loop-exit state `(k, hash, elem)`. -/
def HashTable.findKeyLoop :
    Nat → HashTable V → Int → Int → Except Unit (Int × Int × Option (HTableCell V))
  | 0, _, _, _ => .error ()
  | fuel + 1, t, key, k =>
    let hsh := t.Hash key k
    match t.elements.Get hsh with
    | .error e => .error e
    | .ok none => .ok (k, hsh, none)
    | .ok (some c) =>
      if t.size ≤ k then .ok (k, hsh, some c)
      else if c.key = key then .ok (k, hsh, some c)
      else HashTable.findKeyLoop fuel t key (k + 1)

/-- `HashTable::FindKey`.  Note the post-loop test of the source is
`elem->GetKey() == EMPTY`, comparing the found cell's *key* with the enum
constant `EMPTY` (which converts to `0`), i.e. `c.key = 0`. -/
def HashTable.FindKey (fuel : Nat) (t : HashTable V) (key : Int) :
    Except Unit Int :=
  match HashTable.findKeyLoop fuel t key 0 with
  | .error e => .error e
  | .ok (k, hsh, elem) =>
    match elem with
    | none => .ok (-1)
    | some c =>
      if t.size ≤ k then .ok (-1)
      else if c.key = 0 then .ok (-1)
      else .ok hsh

/-- The probe loop of `HashTable::Insert`:
`while (elem && k <= this->size) { if (elem->GetKey() == key ||
elem->GetCellState() == EMPTY) break; ... }`. -/
def HashTable.insertLoop :
    Nat → HashTable V → Int → Int → Except Unit (Int × Int × Option (HTableCell V))
  | 0, _, _, _ => .error ()
  | fuel + 1, t, key, k =>
    let hsh := t.Hash key k
    match t.elements.Get hsh with
    | .error e => .error e
    | .ok none => .ok (k, hsh, none)
    | .ok (some c) =>
      if t.size + 1 ≤ k then .ok (k, hsh, some c)
      else if c.key = key ∨ c.state = .EMPTY then .ok (k, hsh, some c)
      else HashTable.insertLoop fuel t key (k + 1)

/-- The `for (i = 0; i < old_size; ++i)` rebuild loop of `HashTable::ReHash`,
parametrized by the insert routine `ins` (which in the source is the
recursive call `this->Insert`).  Tombstones are deleted and their old slot is
overwritten with `NULL`; live cells are re-inserted into the new table. -/
def rehashLoopG (ins : HashTable V → Int → V → Except Unit (HashTable V)) :
    Nat → InitArr.InitializedArray (Option (HTableCell V)) → Int → Int →
    HashTable V → Except Unit (HashTable V)
  | 0, _, _, _, _ => .error ()
  | fuel + 1, old, old_size, i, t =>
    if i < old_size then
      match old.Get i with
      | .error e => .error e
      | .ok none => rehashLoopG ins fuel old old_size (i + 1) t
      | .ok (some c) =>
        if c.state = .EMPTY then
          match old.Set i none with
          | .error e => .error e
          | .ok old' => rehashLoopG ins fuel old' old_size (i + 1) t
        else
          match ins t c.key c.value with
          | .error e => .error e
          | .ok t' => rehashLoopG ins fuel old old_size (i + 1) t'
    else .ok t

/-- `HashTable::ReHash`, parametrized by the insert routine. -/
def ReHashG (ins : HashTable V → Int → V → Except Unit (HashTable V))
    (fuel : Nat) (t : HashTable V) (dir : DIRECTION) :
    Except Unit (HashTable V) :=
  if dir = .UP ∧ 3 * t.size ≤ 4 * t.total_elements then
    match FindNextPrime fuel (t.size * 2) with
    | .error e => .error e
    | .ok ns =>
      rehashLoopG ins fuel t.elements t.size 0
        { elements := newArr V ns, size := ns, total_elements := 0 }
  else if dir = .DOWN ∧ INIT_SIZE < t.size ∧ 4 * t.total_elements < t.size then
    match FindNextPrime fuel (Int.tdiv t.size 2) with
    | .error e => .error e
    | .ok ns =>
      rehashLoopG ins fuel t.elements t.size 0
        { elements := newArr V ns, size := ns, total_elements := 0 }
  else .ok t

/-- `HashTable::Insert`.  The update path (`is_exist > 0`) replaces the found
cell and returns; the insert path probes with `insertLoop`, decrements
`total_elements` when the final `elem` is non-null, increments it, writes the
new cell and calls `ReHash(UP)`. -/
def HashTable.Insert : Nat → HashTable V → Int → V → Except Unit (HashTable V)
  | 0, _, _, _ => .error ()
  | fuel + 1, t, key, value =>
    match HashTable.FindKey fuel t key with
    | .error e => .error e
    | .ok is_exist =>
      if 0 < is_exist then
        match t.elements.Set is_exist (some ⟨key, value, .FULL⟩) with
        | .error e => .error e
        | .ok els => .ok { t with elements := els }
      else
        match HashTable.insertLoop fuel t key 0 with
        | .error e => .error e
        | .ok (_k, hsh, elem) =>
          match t.elements.Set hsh (some ⟨key, value, .FULL⟩) with
          | .error e => .error e
          | .ok els =>
            ReHashG (fun t' k' v' => HashTable.Insert fuel t' k' v') fuel
              { elements := els, size := t.size,
                total_elements :=
                  (if elem.isSome then t.total_elements - 1 else t.total_elements) + 1 }
              .UP

/-- `HashTable::ReHash` with the source's insert routine plugged in. -/
def HashTable.ReHash (fuel : Nat) (t : HashTable V) (dir : DIRECTION) :
    Except Unit (HashTable V) :=
  ReHashG (fun t' k' v' => HashTable.Insert fuel t' k' v') fuel t dir

/-- `HashTable::Remove`.  A negative `FindKey` result is a no-op; otherwise
the cell is fetched (`NULL` dereference would be UB, modelled as error), and
if `FULL` its state is set to `EMPTY`, `total_elements` is decremented and
`ReHash(DOWN)` runs. -/
def HashTable.Remove (fuel : Nat) (t : HashTable V) (key : Int) :
    Except Unit (HashTable V) :=
  match HashTable.FindKey fuel t key with
  | .error e => .error e
  | .ok is_exist =>
    if is_exist < 0 then .ok t
    else
      match t.elements.Get is_exist with
      | .error e => .error e
      | .ok none => .error ()
      | .ok (some c) =>
        if c.state = .FULL then
          match t.elements.Set is_exist (some { c with state := .EMPTY }) with
          | .error e => .error e
          | .ok els =>
            HashTable.ReHash fuel
              { t with elements := els, total_elements := t.total_elements - 1 }
              .DOWN
        else .ok t

/-- `HashTable::Find`: returns `NULL` (`none`) for a negative `FindKey`
result, otherwise a detached copy of the found cell (copy-constructing from a
`NULL` pointer would be UB, modelled as error). -/
def HashTable.Find (fuel : Nat) (t : HashTable V) (key : Int) :
    Except Unit (Option (HTableCell V)) :=
  match HashTable.FindKey fuel t key with
  | .error e => .error e
  | .ok new_key =>
    if new_key < 0 then .ok none
    else
      match t.elements.Get new_key with
      | .error e => .error e
      | .ok none => .error ()
      | .ok (some c) => .ok (some c)

/-- `HashTable::Exists`: `return found_key > 0;`. -/
def HashTable.Exists (fuel : Nat) (t : HashTable V) (key : Int) :
    Except Unit Bool :=
  match HashTable.FindKey fuel t key with
  | .error e => .error e
  | .ok found_key => .ok (decide (0 < found_key))

/-- `HashTable::GetSize`. -/
def HashTable.GetSize (t : HashTable V) : Int :=
  t.size

/-- `HashTable::GetTotalElements`. -/
def HashTable.GetTotalElements (t : HashTable V) : Int :=
  t.total_elements

/-- `HashTable::HashTable()`: empty table at capacity `INIT_SIZE`. -/
def emptyTable (V : Type) : HashTable V :=
  { elements := newArr V INIT_SIZE, size := INIT_SIZE, total_elements := 0 }

/-- The two `for` loops of the merge constructor
`HashTable(const HashTable &ht1, const HashTable &ht2)`: insert every
non-null `FULL` cell of the source array. -/
def mergeLoopG (ins : HashTable V → Int → V → Except Unit (HashTable V)) :
    Nat → InitArr.InitializedArray (Option (HTableCell V)) → Int → Int →
    HashTable V → Except Unit (HashTable V)
  | 0, _, _, _, _ => .error ()
  | fuel + 1, src, src_size, i, t =>
    if i < src_size then
      match src.Get i with
      | .error e => .error e
      | .ok none => mergeLoopG ins fuel src src_size (i + 1) t
      | .ok (some c) =>
        if c.state = .EMPTY then mergeLoopG ins fuel src src_size (i + 1) t
        else
          match ins t c.key c.value with
          | .error e => .error e
          | .ok t' => mergeLoopG ins fuel src src_size (i + 1) t'
    else .ok t

/-- The merge constructor: new capacity `FindNextPrime(2 * (size1 + size2))`,
then both source tables' live cells are inserted via the normal `Insert`. -/
def mergeCtor (fuel : Nat) (ht1 ht2 : HashTable V) :
    Except Unit (HashTable V) :=
  match FindNextPrime fuel (2 * (ht1.size + ht2.size)) with
  | .error e => .error e
  | .ok ns =>
    match mergeLoopG (fun t' k' v' => HashTable.Insert fuel t' k' v') fuel
        ht1.elements ht1.size 0
        { elements := newArr V ns, size := ns, total_elements := 0 } with
    | .error e => .error e
    | .ok t1 =>
      mergeLoopG (fun t' k' v' => HashTable.Insert fuel t' k' v') fuel
        ht2.elements ht2.size 0 t1

/-- A client-side operation on the table interface. -/
inductive Op (V : Type) where
  | ins (key : Int) (value : V)
  | rem (key : Int)

/-- Run one client operation. -/
def runOp (fuel : Nat) (t : HashTable V) : Op V → Except Unit (HashTable V)
  | .ins k v => HashTable.Insert fuel t k v
  | .rem k => HashTable.Remove fuel t k

/-- Run a sequence of client operations. -/
def runOps (fuel : Nat) : HashTable V → List (Op V) → Except Unit (HashTable V)
  | t, [] => .ok t
  | t, op :: rest =>
    match runOp fuel t op with
    | .error e => .error e
    | .ok t' => runOps fuel t' rest

/-- Number of slots of the table whose state is `FULL`. -/
def fullSlots (t : HashTable V) : Nat :=
  ((List.range t.size.toNat).filter fun i =>
    match t.elements.Get (i : Int) with
    | .ok (some c) => decide (c.state = .FULL)
    | _ => false).length

/-- Extract the result of a successful run (fallback for the error case). -/
def okOr {α : Type} (x : Except Unit α) (dflt : α) : α :=
  match x with
  | .ok a => a
  | .error _ => dflt

/-- Whether a modelled run completed without error. -/
def isOkE {α : Type} : Except Unit α → Bool
  | .ok _ => true
  | .error _ => false

/-- The capacity invariant of the specification: `size` is prime and at
least the initial capacity 7. -/
def SizeOK (t : HashTable V) : Prop :=
  7 ≤ t.size ∧ Nat.Prime (Int.toNat t.size)

end HTable

open HTable InitArr

deriving instance DecidableEq for Except

/-- Claim C1 (code_bug evaluation).  Round-trip fails at key `0`: on the
empty table, `Insert(0, "a")` succeeds (and stores a `FULL` cell with key
`0`), yet `Find(0)` returns the not-found sentinel `NULL` (`none`), because
`FindKey`'s post-loop test `elem->GetKey() == EMPTY` compares the found key
with the enum constant `EMPTY = 0`. -/
theorem C1_insert_find_key_zero_eval :
    isOkE (HashTable.Insert 100 (emptyTable String) 0 "a") = true ∧
    fullSlots (okOr (HashTable.Insert 100 (emptyTable String) 0 "a") (emptyTable String)) = 1 ∧
    HashTable.Find 100
      (okOr (HashTable.Insert 100 (emptyTable String) 0 "a") (emptyTable String)) 0 =
      .ok none := by
  decide

/-- Claim C4 (code_bug evaluation).  After `Insert(1, "a"); Remove(1);
Insert(1, "b")` starting from the empty table, the re-insertion into the
tombstoned slot goes through the update path (`is_exist > 0`) and does not
increment `total_elements`: the run succeeds, `GetTotalElements()` is `0`,
but one slot is `FULL`. -/
theorem C4_live_count_eval :
    isOkE (runOps 100 (emptyTable String) [.ins 1 "a", .rem 1, .ins 1 "b"]) = true ∧
    HashTable.GetTotalElements
      (okOr (runOps 100 (emptyTable String) [.ins 1 "a", .rem 1, .ins 1 "b"])
        (emptyTable String)) = 0 ∧
    fullSlots
      (okOr (runOps 100 (emptyTable String) [.ins 1 "a", .rem 1, .ins 1 "b"])
        (emptyTable String)) = 1 := by
  decide

/-- Claim C5 (code_bug evaluation).  After `Insert(1, "a"); Remove(1)` (and
no re-insertion), `Find(1)` does not return the not-found sentinel: it
returns a detached copy of the tombstoned cell (state `EMPTY`), and
`Exists(1)` returns `true` — the probe matches the tombstone's leftover key
instead of probing through it. -/
theorem C5_tombstone_lookup_eval :
    HashTable.Find 100
      (okOr (runOps 100 (emptyTable String) [.ins 1 "a", .rem 1]) (emptyTable String)) 1 =
      .ok (some ⟨1, "a", .EMPTY⟩) ∧
    HashTable.Exists 100
      (okOr (runOps 100 (emptyTable String) [.ins 1 "a", .rem 1]) (emptyTable String)) 1 =
      .ok true := by
  decide

/-- Claim C6 (code_bug evaluation).  After `Insert(7, "a")` on the empty
table the record of key `7` is live and stored at slot index `0`
(`7 % 7 = 0`): `Find(7)` returns it, yet `Exists(7)` returns `false`,
because `Exists` tests `found_key > 0` against the `-1` sentinel instead of
`found_key >= 0`. -/
theorem C6_exists_slot_zero_eval :
    HashTable.Find 100
      (okOr (runOps 100 (emptyTable String) [.ins 7 "a"]) (emptyTable String)) 7 =
      .ok (some ⟨7, "a", .FULL⟩) ∧
    HashTable.Exists 100
      (okOr (runOps 100 (emptyTable String) [.ins 7 "a"]) (emptyTable String)) 7 =
      .ok false := by
  decide

/-- Claim C8 (counterexample).  Starting from the empty table of capacity 7
and inserting keys 1..6 with values "a".."f", the capacity after the 6th
insert is 17, not 11 as the claim states. -/
theorem C8_resize_counterexample :
    HashTable.GetSize
      (okOr (runOps 100 (emptyTable String)
        [.ins 1 "a", .ins 2 "b", .ins 3 "c", .ins 4 "d", .ins 5 "e", .ins 6 "f"])
        (emptyTable String)) = 17 ∧
    ¬ HashTable.GetSize
      (okOr (runOps 100 (emptyTable String)
        [.ins 1 "a", .ins 2 "b", .ins 3 "c", .ins 4 "d", .ins 5 "e", .ins 6 "f"])
        (emptyTable String)) = 11 := by
  decide

/-- Claim C8 (amended).  Same scenario with the correct resulting capacity:
no resize through the 5th insert (capacity still 7, `total_elements = 5`);
the 6th insert triggers a grow, the new capacity is the next prime after
`floor(7 * 2) = 14`, namely 17 (`FindNextPrime(14) = 17`), and all 6 entries
remain retrievable via `Find` after the rebuild. -/
theorem C8_resize_amended :
    HashTable.GetSize
      (okOr (runOps 100 (emptyTable String)
        [.ins 1 "a", .ins 2 "b", .ins 3 "c", .ins 4 "d", .ins 5 "e"])
        (emptyTable String)) = 7 ∧
    HashTable.GetTotalElements
      (okOr (runOps 100 (emptyTable String)
        [.ins 1 "a", .ins 2 "b", .ins 3 "c", .ins 4 "d", .ins 5 "e"])
        (emptyTable String)) = 5 ∧
    FindNextPrime 100 14 = .ok 17 ∧
    HashTable.GetSize
      (okOr (runOps 100 (emptyTable String)
        [.ins 1 "a", .ins 2 "b", .ins 3 "c", .ins 4 "d", .ins 5 "e", .ins 6 "f"])
        (emptyTable String)) = 17 ∧
    ((List.range 6).map fun i =>
      HashTable.Find 100
        (okOr (runOps 100 (emptyTable String)
          [.ins 1 "a", .ins 2 "b", .ins 3 "c", .ins 4 "d", .ins 5 "e", .ins 6 "f"])
          (emptyTable String)) ((i : Int) + 1)) =
      [.ok (some ⟨1, "a", .FULL⟩), .ok (some ⟨2, "b", .FULL⟩),
       .ok (some ⟨3, "c", .FULL⟩), .ok (some ⟨4, "d", .FULL⟩),
       .ok (some ⟨5, "e", .FULL⟩), .ok (some ⟨6, "f", .FULL⟩)] := by
  decide

/-- Claim C9 (code_bug evaluation).  One concrete memory state exhibiting the
copy-constructor bug: source array of length 5 and default `-1` (all garbage
zero), after `Set(3, 42)` the source's `Get(3)` is `42`, but the
copy-constructed array's `Get(3)` is `0` — the loop copies `values[i]` and
`short_cuts[i]` for `i < top` (write-order positions) instead of the entries
at the written indices, so the copy reads leftover memory. -/
theorem C9_copy_equivalence_eval :
    InitializedArray.Get
      (okOr (InitializedArray.Set (mkArr 5 (-1 : Int) (fun _ => 0) (fun _ => 0) (fun _ => 0)) 3 42)
        (mkArr 5 (-1 : Int) (fun _ => 0) (fun _ => 0) (fun _ => 0))) 3 = .ok 42 ∧
    InitializedArray.Get
      (copyCtor
        (okOr (InitializedArray.Set (mkArr 5 (-1 : Int) (fun _ => 0) (fun _ => 0) (fun _ => 0)) 3 42)
          (mkArr 5 (-1 : Int) (fun _ => 0) (fun _ => 0) (fun _ => 0)))
        (fun _ => 0) (fun _ => 0) (fun _ => 0)) 3 = .ok 0 := by
  decide

/-- Claim C10 (code_bug evaluation).  A reachable table state on which
`Insert` destroys another key's live record: after the 11 listed operations
key `7` is live with value "g" (`Find(7)` returns it), but `Insert(10, "j")`
probes a full cycle without finding an available slot and then blindly
overwrites the slot holding key `7`'s record, after which `Find(7)` returns
the not-found sentinel. -/
theorem C10_insert_frame_eval :
    HashTable.Find 100
      (okOr (runOps 100 (emptyTable String)
        [.ins 1 "a", .ins 2 "b", .ins 3 "c", .ins 4 "d", .ins 5 "e", .rem 1,
         .ins 6 "f", .rem 2, .ins 7 "g", .ins 8 "h", .ins 9 "i"])
        (emptyTable String)) 7 = .ok (some ⟨7, "g", .FULL⟩) ∧
    HashTable.Find 100
      (okOr (runOps 100 (emptyTable String)
        [.ins 1 "a", .ins 2 "b", .ins 3 "c", .ins 4 "d", .ins 5 "e", .rem 1,
         .ins 6 "f", .rem 2, .ins 7 "g", .ins 8 "h", .ins 9 "i", .ins 10 "j"])
        (emptyTable String)) 7 = .ok none := by
  decide

/-- Claim C3 (counterexample).  At the initial (prime) capacity 7 and key 6,
the double-hashing step `1 + (6 mod 7) = 7` is congruent to `0` modulo the
capacity, and the probe sequence is constant — it visits a single slot, not
all 7 residues. -/
theorem C3_step_zero_counterexample :
    Nat.Prime (Int.toNat (HashTable.GetSize (emptyTable String))) ∧
    Int.tmod (1 + Int.tmod 6 CONST_C) (HashTable.GetSize (emptyTable String)) = 0 ∧
    ((List.range 7).map fun k => HashTable.Hash (emptyTable String) 6 (k : Int)) =
      [6, 6, 6, 6, 6, 6, 6] := by
  decide

theorem goodArr_congr {V : Type} {a : InitializedArray V} {f f' : Int → Option V}
    (hg : GoodArr a f) (h : ∀ j, f j = f' j) : GoodArr a f' := by
  refine ⟨hg.top_nonneg, ?_, ?_, ?_, ?_⟩
  · intro j hj
    exact hg.dom j (by rw [h j]; exact hj)
  · intro j v hj
    exact hg.val j v (by rw [h j]; exact hj)
  · intro j hj
    exact hg.written_tracked j (by rw [h j]; exact hj)
  · intro s h0 hs
    rw [← h]
    exact hg.range_written s h0 hs

theorem goodArr_mk {V : Type} (len : Int) (d : V) (gv : Int → V) (gs gi : Int → Int) :
    GoodArr (mkArr len d gv gs gi) (fun _ => none) := by
  refine ⟨le_refl 0, ?_, ?_, ?_, ?_⟩
  · intro j hj
    exact absurd rfl hj
  · intro j v hj
    exact absurd hj (by simp)
  · intro j hj
    exact absurd rfl hj
  · intro s h0 hs
    exact absurd (lt_of_le_of_lt h0 hs) (lt_irrefl 0)

theorem isInitialized_eq {V : Type} {a : InitializedArray V} {f : Int → Option V}
    (hg : GoodArr a f) {j : Int} (h0 : 0 ≤ j) (hl : j < a.length) :
    a.IsInitialized j = .ok (f j).isSome := by
  unfold InitializedArray.IsInitialized
  rw [if_neg (by omega)]
  by_cases htop : a.top = 0
  · rw [if_pos htop]
    cases hf : f j with
    | none => simp
    | some v =>
      have h := hg.written_tracked j (by simp [hf])
      omega
  · rw [if_neg htop]
    cases hf : f j with
    | some v =>
      have h := hg.written_tracked j (by simp [hf])
      simp [h.1, h.2.1, h.2.2]
    | none =>
      have hne : ¬ (a.short_cuts j < a.top ∧ 0 ≤ a.short_cuts j ∧
          a.init_indexes (a.short_cuts j) = j) := by
        rintro ⟨h1, h2, h3⟩
        have hw := hg.range_written _ h2 h1
        rw [h3, hf] at hw
        exact hw rfl
      simp [hne]

theorem get_eq {V : Type} {a : InitializedArray V} {f : Int → Option V}
    (hg : GoodArr a f) {j : Int} (h0 : 0 ≤ j) (hl : j < a.length) :
    a.Get j = .ok ((f j).getD a.deflt) := by
  unfold InitializedArray.Get
  rw [isInitialized_eq hg h0 hl]
  cases hf : f j with
  | none => simp
  | some v => simp [hg.val j v hf]

theorem set_ok_range {V : Type} {a a' : InitializedArray V} {i : Int} {v : V}
    (h : a.Set i v = .ok a') : 0 ≤ i ∧ i < a.length := by
  unfold InitializedArray.Set InitializedArray.IsInitialized at h
  by_cases hr : a.length ≤ i ∨ i < 0
  · rw [if_pos hr] at h
    exact absurd h (by simp)
  · omega

theorem set_eq_already {V : Type} {a : InitializedArray V} {f : Int → Option V}
    (hg : GoodArr a f) {i : Int} {v : V} (h0 : 0 ≤ i) (hl : i < a.length)
    (hf : (f i).isSome = true) :
    a.Set i v = .ok { a with values := upd a.values i v } := by
  unfold InitializedArray.Set
  rw [isInitialized_eq hg h0 hl, hf]
  rfl

theorem set_eq_fresh {V : Type} {a : InitializedArray V} {f : Int → Option V}
    (hg : GoodArr a f) {i : Int} {v : V} (h0 : 0 ≤ i) (hl : i < a.length)
    (hf : (f i).isSome = false) :
    a.Set i v = .ok { values := upd a.values i v,
                      short_cuts := upd a.short_cuts i a.top,
                      init_indexes := upd a.init_indexes a.top i, top := a.top + 1,
                      length := a.length, deflt := a.deflt } := by
  unfold InitializedArray.Set
  rw [isInitialized_eq hg h0 hl, hf]
  rfl

theorem goodArr_set_already {V : Type} {a : InitializedArray V} {f : Int → Option V}
    (hg : GoodArr a f) {i : Int} {v : V} (h0 : 0 ≤ i) (hl : i < a.length)
    (hf : f i ≠ none) :
    GoodArr { a with values := upd a.values i v } (upd f i (some v)) := by
  refine ⟨hg.top_nonneg, ?_, ?_, ?_, ?_⟩
  · intro j hj
    by_cases hji : j = i
    · subst hji
      exact ⟨h0, hl⟩
    · exact hg.dom j (by simpa [upd, hji] using hj)
  · intro j w hj
    show upd a.values i v j = w
    by_cases hji : j = i
    · subst hji
      simp only [upd, if_pos rfl] at hj ⊢
      cases hj
      rfl
    · simp only [upd, if_neg hji] at hj ⊢
      exact hg.val j w hj
  · intro j hj
    show 0 ≤ a.short_cuts j ∧ a.short_cuts j < a.top ∧ a.init_indexes (a.short_cuts j) = j
    by_cases hji : j = i
    · subst hji
      exact hg.written_tracked j hf
    · exact hg.written_tracked j (by simpa [upd, hji] using hj)
  · intro s h0s hs
    show upd f i (some v) (a.init_indexes s) ≠ none
    have hw := hg.range_written s h0s hs
    by_cases hsi : a.init_indexes s = i
    · simp [upd, hsi]
    · simpa [upd, hsi] using hw

theorem goodArr_set_fresh {V : Type} {a : InitializedArray V} {f : Int → Option V}
    (hg : GoodArr a f) {i : Int} {v : V} (h0 : 0 ≤ i) (hl : i < a.length)
    (hf : f i = none) :
    GoodArr { values := upd a.values i v,
              short_cuts := upd a.short_cuts i a.top,
              init_indexes := upd a.init_indexes a.top i, top := a.top + 1,
              length := a.length, deflt := a.deflt } (upd f i (some v)) := by
  have htop := hg.top_nonneg
  refine ⟨by dsimp only; omega, ?_, ?_, ?_, ?_⟩
  · intro j hj
    by_cases hji : j = i
    · subst hji
      exact ⟨h0, hl⟩
    · exact hg.dom j (by simpa [upd, hji] using hj)
  · intro j w hj
    show upd a.values i v j = w
    by_cases hji : j = i
    · subst hji
      simp only [upd, if_pos rfl] at hj ⊢
      cases hj
      rfl
    · simp only [upd, if_neg hji] at hj ⊢
      exact hg.val j w hj
  · intro j hj
    show 0 ≤ upd a.short_cuts i a.top j ∧ upd a.short_cuts i a.top j < a.top + 1 ∧
      upd a.init_indexes a.top i (upd a.short_cuts i a.top j) = j
    by_cases hji : j = i
    · subst hji
      simp [upd, htop]
    · have hj' : f j ≠ none := by simpa [upd, hji] using hj
      obtain ⟨hb1, hb2, hb3⟩ := hg.written_tracked j hj'
      simp only [upd, if_neg hji]
      refine ⟨hb1, by omega, ?_⟩
      rw [if_neg (by omega : ¬ a.short_cuts j = a.top)]
      exact hb3
  · intro s h0s hs
    show upd f i (some v) (upd a.init_indexes a.top i s) ≠ none
    by_cases hst : s = a.top
    · subst hst
      simp [upd]
    · have hs' : s < a.top := by
        have : s < a.top + 1 := by simpa using hs
        omega
      have hw := hg.range_written s h0s hs'
      simp only [upd, if_neg hst]
      by_cases hsi : a.init_indexes s = i
      · simp [hsi]
      · simpa [hsi] using hw

theorem set_good {V : Type} {a a' : InitializedArray V} {f : Int → Option V}
    {i : Int} {v : V} (hg : GoodArr a f) (h : a.Set i v = .ok a') :
    GoodArr a' (upd f i (some v)) ∧ a'.length = a.length ∧ a'.deflt = a.deflt := by
  obtain ⟨h0, hl⟩ := set_ok_range h
  cases hf : f i with
  | some w =>
    rw [set_eq_already hg h0 hl (by simp [hf])] at h
    have h' := Except.ok.inj h
    subst h'
    exact ⟨goodArr_set_already hg h0 hl (by simp [hf]), rfl, rfl⟩
  | none =>
    rw [set_eq_fresh hg h0 hl (by simp [hf])] at h
    have h' := Except.ok.inj h
    subst h'
    exact ⟨goodArr_set_fresh hg h0 hl hf, rfl, rfl⟩

theorem lastVal_cons {V : Type} (i : Int) (v : V) (rest : List (Int × V)) (j : Int) :
    lastVal ((i, v) :: rest) j =
      match lastVal rest j with
      | some w => some w
      | none => if i = j then some v else none :=
  rfl

theorem applySets_good {V : Type} (ops : List (Int × V)) :
    ∀ (a b : InitializedArray V) (f : Int → Option V),
      GoodArr a f → applySets a ops = .ok b →
      GoodArr b (fun j => match lastVal ops j with
        | some w => some w
        | none => f j) ∧ b.length = a.length ∧ b.deflt = a.deflt := by
  induction ops with
  | nil =>
    intro a b f hg hb
    unfold applySets at hb
    cases hb
    exact ⟨goodArr_congr hg (fun j => rfl), rfl, rfl⟩
  | cons p rest ih =>
    intro a b f hg hb
    obtain ⟨i, v⟩ := p
    unfold applySets at hb
    cases hset : a.Set i v with
    | error e =>
      rw [hset] at hb
      exact absurd hb (by simp)
    | ok a1 =>
      rw [hset] at hb
      obtain ⟨hg1, hlen1, hd1⟩ := set_good hg hset
      obtain ⟨hgb, hlenb, hdb⟩ := ih a1 b (upd f i (some v)) hg1 hb
      refine ⟨goodArr_congr hgb ?_, by rw [hlenb, hlen1], by rw [hdb, hd1]⟩
      intro j
      rw [lastVal_cons]
      cases hlv : lastVal rest j with
      | some w => simp [hlv]
      | none =>
        simp only [hlv, upd]
        by_cases hji : j = i
        · subst hji
          simp
        · rw [if_neg hji, if_neg (fun hh => hji hh.symm)]

theorem lastVal_eq_none {V : Type} (ops : List (Int × V)) (j : Int)
    (h : j ∉ ops.map Prod.fst) : lastVal ops j = none := by
  induction ops with
  | nil => rfl
  | cons p rest ih =>
    obtain ⟨i, v⟩ := p
    simp only [List.map_cons, List.mem_cons] at h
    push_neg at h
    rw [lastVal_cons, ih h.2]
    have hne : ¬ i = j := fun hh => h.1 hh.symm
    simp [hne]


/-- Claim C2.  Lazy Array default-read semantics: for every freshly
constructed array (any length, default value and garbage memory contents)
and any successful history of `Set` calls, `Get` on an in-range index never
passed to `Set` returns the default value, and `Get` on a written index
returns the last value written there (in particular, after `Set(i, v)`,
`Get(i)` returns `v` while every other never-written in-range index still
reads the default). -/
theorem C2_lazy_array_default_read {V : Type}
    (len : Int) (d : V) (gv : Int → V) (gs gi : Int → Int)
    (ops : List (Int × V)) (b : InitializedArray V)
    (hb : applySets (mkArr len d gv gs gi) ops = .ok b)
    (j : Int) (hj0 : 0 ≤ j) (hjl : j < len) :
    (j ∉ ops.map Prod.fst → b.Get j = .ok d) ∧
    (∀ v, lastVal ops j = some v → b.Get j = .ok v) := by
  obtain ⟨hgb, hlen, hd⟩ :=
    applySets_good ops (mkArr len d gv gs gi) b (fun _ => none)
      (goodArr_mk len d gv gs gi) hb
  have hjb : j < b.length := by
    rw [hlen]; exact hjl
  have hget := get_eq hgb hj0 hjb
  constructor
  · intro hnot
    rw [hget, lastVal_eq_none ops j hnot, hd]
    rfl
  · intro v hv
    rw [hget, hv]
    rfl

/-- Claim C2 witness: length 5, default `-1`, garbage values 37 and garbage
tracking entries 0; after `Set(3, 42)`, `Get(2)` is `-1` and `Get(3)` is
`42`. -/
theorem C2_lazy_array_default_read_witness :
    InitializedArray.Get
      (okOr (applySets (mkArr 5 (-1 : Int) (fun _ => 37) (fun _ => 0) (fun _ => 0)) [(3, 42)])
        (mkArr 5 (-1 : Int) (fun _ => 37) (fun _ => 0) (fun _ => 0))) 2 = .ok (-1) ∧
    InitializedArray.Get
      (okOr (applySets (mkArr 5 (-1 : Int) (fun _ => 37) (fun _ => 0) (fun _ => 0)) [(3, 42)])
        (mkArr 5 (-1 : Int) (fun _ => 37) (fun _ => 0) (fun _ => 0))) 3 = .ok 42 :=
  ⟨(C2_lazy_array_default_read 5 (-1) (fun _ => 37) (fun _ => 0) (fun _ => 0) [(3, 42)]
      _ rfl 2 (by decide) (by decide)).1 (by decide),
   (C2_lazy_array_default_read 5 (-1) (fun _ => 37) (fun _ => 0) (fun _ => 0) [(3, 42)]
      _ rfl 3 (by decide) (by decide)).2 42 rfl⟩

/-- Claim C3 (amended).  For every nonnegative key and every table whose
capacity `size` is a prime strictly greater than 7 (every capacity the table
can reach other than the initial 7, which the counterexample
`C3_step_zero_counterexample` excludes), the double-hashing step
`1 + (key mod 7)` lies in `[1, 7]` and so is not congruent to 0 modulo
`size`, and the probe sequence `Hash(key, k)` for `k = 0 .. size-1` visits
all `size` distinct residues. -/
theorem C3_double_hash_step_amended {V : Type} (t : HashTable V) (key : Int)
    (hk : 0 ≤ key) (hp : Nat.Prime (Int.toNat t.size)) (h7 : 7 < t.size) :
    Int.tmod (1 + Int.tmod key CONST_C) t.size ≠ 0 ∧
    (Finset.range (Int.toNat t.size)).image
      (fun (k : Nat) => Int.toNat (t.Hash key (k : Int))) =
      Finset.range (Int.toNat t.size) := by
  have hC : (0 : Int) < CONST_C := by decide
  have hs0 : 0 ≤ Int.tmod key CONST_C := Int.tmod_nonneg CONST_C hk
  have hs7 : Int.tmod key CONST_C < 7 := Int.tmod_lt_of_pos key hC
  have h1 : Int.tmod (1 + Int.tmod key CONST_C) t.size = 1 + Int.tmod key CONST_C := by
    rw [Int.tmod_eq_emod (by omega) (by omega)]
    exact Int.emod_eq_of_lt (by omega) (by omega)
  refine ⟨by rw [h1]; omega, ?_⟩
  have hprime : Prime t.size := by
    rw [Int.prime_iff_natAbs_prime]
    have hna : t.size.natAbs = Int.toNat t.size := by omega
    rw [hna]
    exact hp
  have hXnn : ∀ k : Nat,
      0 ≤ Int.tmod key t.size + (k : Int) * (1 + Int.tmod key CONST_C) := by
    intro k
    have ha : 0 ≤ Int.tmod key t.size := Int.tmod_nonneg t.size hk
    have hks : 0 ≤ (k : Int) * (1 + Int.tmod key CONST_C) :=
      mul_nonneg (by positivity) (by omega)
    omega
  have hashval : ∀ k : Nat, t.Hash key (k : Int) =
      (Int.tmod key t.size + (k : Int) * (1 + Int.tmod key CONST_C)) % t.size := by
    intro k
    unfold HashTable.Hash
    exact Int.tmod_eq_emod (hXnn k) (by omega)
  have hash_nonneg : ∀ k : Nat, 0 ≤ t.Hash key (k : Int) := by
    intro k
    rw [hashval k]
    exact Int.emod_nonneg _ (by omega)
  have hash_lt : ∀ k : Nat, t.Hash key (k : Int) < t.size := by
    intro k
    rw [hashval k]
    exact Int.emod_lt_of_pos _ (by omega)
  have hinj : Set.InjOn (fun (k : Nat) => Int.toNat (t.Hash key (k : Int)))
      ↑(Finset.range (Int.toNat t.size)) := by
    intro k1 hk1 k2 hk2 heq
    simp only [Finset.coe_range, Set.mem_Iio] at hk1 hk2
    have heq' : Int.toNat (t.Hash key (k1 : Int)) = Int.toNat (t.Hash key (k2 : Int)) := heq
    have hH : t.Hash key (k1 : Int) = t.Hash key (k2 : Int) := by
      have e1 := Int.toNat_of_nonneg (hash_nonneg k1)
      have e2 := Int.toNat_of_nonneg (hash_nonneg k2)
      omega
    rw [hashval k1, hashval k2] at hH
    have hmod := Int.emod_eq_emod_iff_emod_sub_eq_zero.mp hH
    have hsub : (Int.tmod key t.size + (k1 : Int) * (1 + Int.tmod key CONST_C)) -
        (Int.tmod key t.size + (k2 : Int) * (1 + Int.tmod key CONST_C)) =
        ((k1 : Int) - (k2 : Int)) * (1 + Int.tmod key CONST_C) := by
      ring
    rw [hsub] at hmod
    have hdvd : t.size ∣ ((k1 : Int) - (k2 : Int)) * (1 + Int.tmod key CONST_C) :=
      Int.dvd_of_emod_eq_zero hmod
    rcases (hprime.dvd_mul).mp hdvd with hd | hd
    · have habs : |(k1 : Int) - (k2 : Int)| < t.size := by
        rw [abs_lt]
        constructor <;> omega
      have := Int.eq_zero_of_abs_lt_dvd hd habs
      omega
    · have := Int.le_of_dvd (by omega) hd
      omega
  have himg : (Finset.range (Int.toNat t.size)).image
      (fun (k : Nat) => Int.toNat (t.Hash key (k : Int))) ⊆ Finset.range (Int.toNat t.size) := by
    intro x hx
    simp only [Finset.mem_image, Finset.mem_range] at hx ⊢
    obtain ⟨k, hkr, rfl⟩ := hx
    have h0 := hash_nonneg k
    have hlt := hash_lt k
    omega
  refine Finset.eq_of_subset_of_card_le himg ?_
  rw [Finset.card_image_of_injOn hinj]

/-- Claim C3 amended, witness: key 3 on a table of prime capacity 11. -/
theorem C3_double_hash_step_amended_witness :
    Int.tmod (1 + Int.tmod 3 CONST_C) (HashTable.mk (newArr String 11) 11 0).size ≠ 0 ∧
    (Finset.range (Int.toNat (HashTable.mk (newArr String 11) 11 0).size)).image
      (fun (k : Nat) => Int.toNat ((HashTable.mk (newArr String 11) 11 0).Hash 3 (k : Int))) =
      Finset.range (Int.toNat (HashTable.mk (newArr String 11) 11 0).size) :=
  C3_double_hash_step_amended (HashTable.mk (newArr String 11) 11 0) 3
    (by decide) (by decide) (by decide)

theorem isPrimeLoop_no_divisor (fuel : Nat) :
    ∀ (n d : Int), 6 ≤ d → d % 6 = 0 → isPrimeLoop fuel n d = .ok true →
    ∀ m : Int, d - 1 ≤ m → (m % 6 = 1 ∨ m % 6 = 5) → m * m ≤ n →
    Int.tmod n m ≠ 0 := by
  induction fuel with
  | zero =>
    intro n d _ _ h
    exact absurd h (by simp [isPrimeLoop])
  | succ fuel ih =>
    intro n d hd6 hdmod h m hm hm6 hmsq
    unfold isPrimeLoop at h
    by_cases hc : d * d - 2 * d + 1 ≤ n
    · rw [if_pos hc] at h
      by_cases hdiv : Int.tmod n (d - 1) = 0 ∨ Int.tmod n (d + 1) = 0
      · rw [if_pos hdiv] at h
        exact absurd h (by simp)
      · rw [if_neg hdiv] at h
        push_neg at hdiv
        by_cases hm1 : m = d - 1
        · subst hm1
          exact hdiv.1
        · by_cases hm2 : m = d + 1
          · subst hm2
            exact hdiv.2
          · exact ih n (d + 6) (by omega) (by omega) h m (by omega) hm6 hmsq
    · rw [if_neg hc] at h
      exfalso
      have h5 : (5 : Int) ≤ m := by omega
      have hsq : (d - 1) * (d - 1) ≤ m * m :=
        mul_self_le_mul_self (by omega) (by omega)
      have hex : (d - 1) * (d - 1) = d * d - 2 * d + 1 := by ring
      omega

theorem isPrimeLoop_of_prime (fuel : Nat) :
    ∀ (n d : Int) (b : Bool), 6 ≤ d → 5 ≤ n → Nat.Prime (Int.toNat n) →
    isPrimeLoop fuel n d = .ok b → b = true := by
  induction fuel with
  | zero =>
    intro n d b _ _ _ h
    exact absurd h (by simp [isPrimeLoop])
  | succ fuel ih =>
    intro n d b hd hn hp h
    unfold isPrimeLoop at h
    by_cases hc : d * d - 2 * d + 1 ≤ n
    · rw [if_pos hc] at h
      have hd1 : ¬ Int.tmod n (d - 1) = 0 := by
        intro h0
        have hdvd : (d - 1) ∣ n := Int.dvd_of_tmod_eq_zero h0
        have hdvdN : Int.toNat (d - 1) ∣ Int.toNat n := by
          have h1 : ((Int.toNat (d - 1) : Nat) : Int) = d - 1 := by omega
          have h2 : ((Int.toNat n : Nat) : Int) = n := by omega
          rw [← Int.ofNat_dvd, h1, h2]
          exact hdvd
        rcases hp.eq_one_or_self_of_dvd _ hdvdN with hh | hh
        · omega
        · have hdn : d - 1 = n := by omega
          have hex : (d - 1) * (d - 1) = d * d - 2 * d + 1 := by ring
          have hmul : (d - 1) * 5 ≤ (d - 1) * (d - 1) :=
            mul_le_mul_of_nonneg_left (by omega) (by omega)
          linarith
      have hd2 : ¬ Int.tmod n (d + 1) = 0 := by
        intro h0
        have hdvd : (d + 1) ∣ n := Int.dvd_of_tmod_eq_zero h0
        have hdvdN : Int.toNat (d + 1) ∣ Int.toNat n := by
          have h1 : ((Int.toNat (d + 1) : Nat) : Int) = d + 1 := by omega
          have h2 : ((Int.toNat n : Nat) : Int) = n := by omega
          rw [← Int.ofNat_dvd, h1, h2]
          exact hdvd
        rcases hp.eq_one_or_self_of_dvd _ hdvdN with hh | hh
        · omega
        · have hdn : d + 1 = n := by omega
          have hmul : 6 * d ≤ d * d :=
            mul_le_mul_of_nonneg_right (by omega) (by omega)
          linarith
      rw [if_neg (by tauto)] at h
      exact ih n (d + 6) b (by omega) hn hp h
    · rw [if_neg hc] at h
      have hb := Except.ok.inj h
      exact hb.symm

theorem isPrime_ok (fuel : Nat) (n : Int) (hn : 5 ≤ n) (b : Bool)
    (h : IsPrime fuel n = .ok b) : b = true ↔ Nat.Prime (Int.toNat n) := by
  unfold IsPrime at h
  by_cases hg : n = 1 ∨ Int.tmod n 2 = 0 ∨ Int.tmod n 3 = 0
  · rw [if_pos hg] at h
    have hb := Except.ok.inj h
    subst hb
    simp only [Bool.false_eq_true, false_iff]
    intro hpr
    rcases hg with hg | hg | hg
    · omega
    · have hdvd : (2 : Int) ∣ n := Int.dvd_of_tmod_eq_zero hg
      have hdvdN : 2 ∣ Int.toNat n := by
        have h2 : ((Int.toNat n : Nat) : Int) = n := by omega
        rw [← Int.ofNat_dvd]
        rw [show ((2 : Nat) : Int) = 2 by rfl, h2]
        exact hdvd
      rcases hpr.eq_one_or_self_of_dvd _ hdvdN with hh | hh <;> omega
    · have hdvd : (3 : Int) ∣ n := Int.dvd_of_tmod_eq_zero hg
      have hdvdN : 3 ∣ Int.toNat n := by
        have h2 : ((Int.toNat n : Nat) : Int) = n := by omega
        rw [← Int.ofNat_dvd]
        rw [show ((3 : Nat) : Int) = 3 by rfl, h2]
        exact hdvd
      rcases hpr.eq_one_or_self_of_dvd _ hdvdN with hh | hh <;> omega
  · rw [if_neg hg] at h
    push_neg at hg
    obtain ⟨hg1, hg2, hg3⟩ := hg
    constructor
    · intro hb
      subst hb
      by_contra hnp
      have hq_prime : Nat.Prime (Int.toNat n).minFac :=
        Nat.minFac_prime (by omega)
      have hq_dvd : (Int.toNat n).minFac ∣ Int.toNat n := Nat.minFac_dvd _
      have hq_sq : (Int.toNat n).minFac ^ 2 ≤ Int.toNat n :=
        Nat.minFac_sq_le_self (by omega) hnp
      have hcastn : ((Int.toNat n : Nat) : Int) = n := by omega
      have hq_dvdZ : ((Int.toNat n).minFac : Int) ∣ n := by
        rw [← hcastn]
        exact Int.ofNat_dvd.mpr hq_dvd
      have h2q : ¬ 2 ∣ (Int.toNat n).minFac := by
        intro hdd
        apply hg2
        apply Int.tmod_eq_zero_of_dvd
        calc (2 : Int) ∣ ((Int.toNat n).minFac : Int) := by
              exact_mod_cast Int.ofNat_dvd.mpr hdd
          _ ∣ n := hq_dvdZ
      have h3q : ¬ 3 ∣ (Int.toNat n).minFac := by
        intro hdd
        apply hg3
        apply Int.tmod_eq_zero_of_dvd
        calc (3 : Int) ∣ ((Int.toNat n).minFac : Int) := by
              exact_mod_cast Int.ofNat_dvd.mpr hdd
          _ ∣ n := hq_dvdZ
      have hq5 : 5 ≤ (Int.toNat n).minFac := by
        have h2le := hq_prime.two_le
        have hne4 : (Int.toNat n).minFac ≠ 4 := by
          intro hh
          rw [hh] at hq_prime
          exact absurd hq_prime (by decide)
        omega
      have hq6 : ((Int.toNat n).minFac : Int) % 6 = 1 ∨
          ((Int.toNat n).minFac : Int) % 6 = 5 := by omega
      have hmm : ((Int.toNat n).minFac : Int) * ((Int.toNat n).minFac : Int) ≤ n := by
        have := hq_sq
        rw [pow_two] at this
        have hcast := Int.ofNat_le.mpr this
        push_cast at hcast
        omega
      exact isPrimeLoop_no_divisor fuel n 6 (by omega) (by decide) h
        ((Int.toNat n).minFac : Int) (by omega) hq6 hmm
        (Int.tmod_eq_zero_of_dvd hq_dvdZ)
    · intro hpr
      exact isPrimeLoop_of_prime fuel n 6 b (by omega) hn hpr h

theorem findNextPrime_ok (fuel : Nat) :
    ∀ (n m : Int), 5 ≤ n → FindNextPrime fuel n = .ok m →
    n < m ∧ 7 ≤ m ∧ Nat.Prime (Int.toNat m) := by
  induction fuel with
  | zero =>
    intro n m _ h
    exact absurd h (by simp [FindNextPrime])
  | succ fuel ih =>
    intro n m hn h
    unfold FindNextPrime at h
    cases hip : IsPrime fuel (n + 1) with
    | error e =>
      rw [hip] at h
      exact absurd h (by simp)
    | ok b =>
      rw [hip] at h
      cases b with
      | true =>
        have hm := Except.ok.inj h
        subst hm
        have hprime : Nat.Prime (Int.toNat (n + 1)) :=
          (isPrime_ok fuel (n + 1) (by omega) true hip).mp rfl
        have h6 : Int.toNat (n + 1) ≠ 6 := by
          intro hh
          rw [hh] at hprime
          exact absurd hprime (by decide)
        exact ⟨by omega, by omega, hprime⟩
      | false =>
        obtain ⟨ha, hb, hc⟩ := ih (n + 1) m (by omega) h
        exact ⟨by omega, hb, hc⟩

theorem sizeOK_ge11 {V : Type} {t : HashTable V} (h : SizeOK t)
    (h7 : INIT_SIZE < t.size) : 11 ≤ t.size := by
  obtain ⟨hge, hp⟩ := h
  by_contra hlt
  push_neg at hlt
  have h8 : Int.toNat t.size = 8 ∨ Int.toNat t.size = 9 ∨ Int.toNat t.size = 10 := by
    unfold INIT_SIZE at h7
    omega
  rcases h8 with h8 | h8 | h8 <;> rw [h8] at hp <;> exact absurd hp (by decide)


theorem rehashLoopG_sizeOK {V : Type}
    (ins : HashTable V → Int → V → Except Unit (HashTable V))
    (hins : ∀ t k v t', SizeOK t → ins t k v = .ok t' → SizeOK t') :
    ∀ (fuel : Nat) (old : InitArr.InitializedArray (Option (HTableCell V)))
      (old_size i : Int) (t t' : HashTable V), SizeOK t →
      rehashLoopG ins fuel old old_size i t = .ok t' → SizeOK t' := by
  intro fuel
  induction fuel with
  | zero =>
    intro old os i t t' _ h
    exact absurd h (by simp [rehashLoopG])
  | succ fuel ih =>
    intro old os i t t' hok h
    unfold rehashLoopG at h
    split at h
    · split at h
      · exact absurd h (by simp)
      · exact ih old os (i + 1) t t' hok h
      · split at h
        · split at h
          · exact absurd h (by simp)
          · next old1 hset => exact ih old1 os (i + 1) t t' hok h
        · split at h
          · exact absurd h (by simp)
          · next t1 hins' =>
            exact ih old os (i + 1) t1 t' (hins t _ _ t1 hok hins') h
    · have hb := Except.ok.inj h
      subst hb
      exact hok

theorem reHashG_sizeOK {V : Type}
    (ins : HashTable V → Int → V → Except Unit (HashTable V))
    (hins : ∀ t k v t', SizeOK t → ins t k v = .ok t' → SizeOK t')
    (fuel : Nat) (t t' : HashTable V) (dir : DIRECTION)
    (hok : SizeOK t) (h : ReHashG ins fuel t dir = .ok t') : SizeOK t' := by
  unfold ReHashG at h
  split at h
  · next hup =>
    split at h
    · exact absurd h (by simp)
    · next ns hfp =>
      have hns := findNextPrime_ok fuel (t.size * 2) ns
        (by obtain ⟨h7, _⟩ := hok; omega) hfp
      exact rehashLoopG_sizeOK ins hins fuel t.elements t.size 0 _ t'
        ⟨hns.2.1, hns.2.2⟩ h
  · split at h
    · next hdn =>
      split at h
      · exact absurd h (by simp)
      · next ns hfp =>
        have h11 : 11 ≤ t.size := sizeOK_ge11 hok hdn.2.1
        have harg : 5 ≤ Int.tdiv t.size 2 := by
          rw [Int.tdiv_eq_ediv (by omega) (by omega)]
          omega
        have hns := findNextPrime_ok fuel (Int.tdiv t.size 2) ns harg hfp
        exact rehashLoopG_sizeOK ins hins fuel t.elements t.size 0 _ t'
          ⟨hns.2.1, hns.2.2⟩ h
    · have hb := Except.ok.inj h
      subst hb
      exact hok

theorem insert_sizeOK {V : Type} :
    ∀ (fuel : Nat) (t : HashTable V) (key : Int) (v : V) (t' : HashTable V),
      SizeOK t → HashTable.Insert fuel t key v = .ok t' → SizeOK t' := by
  intro fuel
  induction fuel with
  | zero =>
    intro t k v t' _ h
    exact absurd h (by simp [HashTable.Insert])
  | succ fuel ih =>
    intro t k v t' hok h
    unfold HashTable.Insert at h
    split at h
    · exact absurd h (by simp)
    · split at h
      · split at h
        · exact absurd h (by simp)
        · have hb := Except.ok.inj h
          subst hb
          exact hok
      · split at h
        · exact absurd h (by simp)
        · split at h
          · exact absurd h (by simp)
          · refine reHashG_sizeOK (fun t'' k' v' => HashTable.Insert fuel t'' k' v')
              (fun ta ka va ta' hta hh => ih ta ka va ta' hta hh)
              fuel _ t' .UP ?_ h
            exact hok

theorem remove_sizeOK {V : Type} (fuel : Nat) (t : HashTable V) (key : Int)
    (t' : HashTable V) (hok : SizeOK t)
    (h : HashTable.Remove fuel t key = .ok t') : SizeOK t' := by
  unfold HashTable.Remove at h
  split at h
  · exact absurd h (by simp)
  · split at h
    · have hb := Except.ok.inj h
      subst hb
      exact hok
    · split at h
      · exact absurd h (by simp)
      · exact absurd h (by simp)
      · split at h
        · split at h
          · exact absurd h (by simp)
          · unfold HashTable.ReHash at h
            refine reHashG_sizeOK (fun t'' k' v' => HashTable.Insert fuel t'' k' v')
              (fun ta ka va ta' hta hh => insert_sizeOK fuel ta ka va ta' hta hh)
              fuel _ t' .DOWN ?_ h
            exact hok
        · have hb := Except.ok.inj h
          subst hb
          exact hok

theorem runOps_sizeOK {V : Type} (fuel : Nat) (ops : List (Op V)) :
    ∀ (t t' : HashTable V), SizeOK t → runOps fuel t ops = .ok t' → SizeOK t' := by
  induction ops with
  | nil =>
    intro t t' hok h
    have hb := Except.ok.inj h
    subst hb
    exact hok
  | cons op rest ih =>
    intro t t' hok h
    unfold runOps at h
    split at h
    · exact absurd h (by simp)
    · next t1 hstep =>
      have h1 : SizeOK t1 := by
        cases op with
        | ins k v =>
          exact insert_sizeOK fuel t k v t1 hok (by simpa [runOp] using hstep)
        | rem k =>
          exact remove_sizeOK fuel t k t1 hok (by simpa [runOp] using hstep)
      exact ih t1 t' h1 h

theorem mergeLoopG_sizeOK {V : Type}
    (ins : HashTable V → Int → V → Except Unit (HashTable V))
    (hins : ∀ t k v t', SizeOK t → ins t k v = .ok t' → SizeOK t') :
    ∀ (fuel : Nat) (src : InitArr.InitializedArray (Option (HTableCell V)))
      (src_size i : Int) (t t' : HashTable V), SizeOK t →
      mergeLoopG ins fuel src src_size i t = .ok t' → SizeOK t' := by
  intro fuel
  induction fuel with
  | zero =>
    intro src ss i t t' _ h
    exact absurd h (by simp [mergeLoopG])
  | succ fuel ih =>
    intro src ss i t t' hok h
    unfold mergeLoopG at h
    split at h
    · split at h
      · exact absurd h (by simp)
      · exact ih src ss (i + 1) t t' hok h
      · split at h
        · exact ih src ss (i + 1) t t' hok h
        · split at h
          · exact absurd h (by simp)
          · next t1 hins' =>
            exact ih src ss (i + 1) t1 t' (hins t _ _ t1 hok hins') h
    · have hb := Except.ok.inj h
      subst hb
      exact hok

theorem mergeCtor_sizeOK {V : Type} (fuel : Nat) (t1 t2 tm : HashTable V)
    (h1 : SizeOK t1) (h2 : SizeOK t2)
    (hm : mergeCtor fuel t1 t2 = .ok tm) : SizeOK tm := by
  have hinsOK : ∀ (ta : HashTable V) k v ta', SizeOK ta →
      HashTable.Insert fuel ta k v = .ok ta' → SizeOK ta' :=
    fun ta k v ta' hta hh => insert_sizeOK fuel ta k v ta' hta hh
  unfold mergeCtor at hm
  split at hm
  · exact absurd hm (by simp)
  · next ns hfp =>
    have hns := findNextPrime_ok fuel (2 * (t1.size + t2.size)) ns
      (by obtain ⟨h7, _⟩ := h1; obtain ⟨h7', _⟩ := h2; omega) hfp
    split at hm
    · exact absurd hm (by simp)
    · next tmid hm1 =>
      have hmid := mergeLoopG_sizeOK _ hinsOK fuel t1.elements t1.size 0 _ tmid
        ⟨hns.2.1, hns.2.2⟩ hm1
      exact mergeLoopG_sizeOK _ hinsOK fuel t2.elements t2.size 0 tmid tm hmid hm

/-- Claim C7.  Capacity invariant: after any successful sequence of `Insert`
and `Remove` operations starting from the empty table (construction
included, as the empty sequence), and likewise after a merge-construction
from two tables satisfying the invariant, `GetSize()` is a prime number at
least the initial capacity 7; moreover the trial-division primality test is
correct for every candidate it is applied to (every integer at least 5 on
which `IsPrime` completes). -/
theorem C7_capacity_prime (fuel : Nat) (ops : List (Op String))
    (t t1 t2 tm : HashTable String) (n : Int) (b : Bool)
    (hrun : runOps fuel (emptyTable String) ops = .ok t)
    (h1 : SizeOK t1) (h2 : SizeOK t2)
    (hm : mergeCtor fuel t1 t2 = .ok tm)
    (hn : 5 ≤ n) (hb : IsPrime fuel n = .ok b) :
    (7 ≤ HashTable.GetSize t ∧ Nat.Prime (Int.toNat (HashTable.GetSize t))) ∧
    (7 ≤ HashTable.GetSize tm ∧ Nat.Prime (Int.toNat (HashTable.GetSize tm))) ∧
    (b = true ↔ Nat.Prime (Int.toNat n)) := by
  have hempty : SizeOK (emptyTable String) := ⟨by decide, by decide⟩
  refine ⟨runOps_sizeOK fuel ops (emptyTable String) t hempty hrun,
    mergeCtor_sizeOK fuel t1 t2 tm h1 h2 hm,
    isPrime_ok fuel n hn b hb⟩

/-- Claim C7 witness: the run `Insert(1, "a")` from the empty table, the
merge of two empty tables, and the candidate 7. -/
theorem C7_capacity_prime_witness :
    (7 ≤ HashTable.GetSize
        (okOr (runOps 50 (emptyTable String) [.ins 1 "a"]) (emptyTable String)) ∧
      Nat.Prime (Int.toNat (HashTable.GetSize
        (okOr (runOps 50 (emptyTable String) [.ins 1 "a"]) (emptyTable String))))) ∧
    (7 ≤ HashTable.GetSize
        (okOr (mergeCtor 50 (emptyTable String) (emptyTable String)) (emptyTable String)) ∧
      Nat.Prime (Int.toNat (HashTable.GetSize
        (okOr (mergeCtor 50 (emptyTable String) (emptyTable String)) (emptyTable String))))) ∧
    (true = true ↔ Nat.Prime (Int.toNat 7)) :=
  C7_capacity_prime 50 [.ins 1 "a"]
    (okOr (runOps 50 (emptyTable String) [.ins 1 "a"]) (emptyTable String))
    (emptyTable String) (emptyTable String)
    (okOr (mergeCtor 50 (emptyTable String) (emptyTable String)) (emptyTable String))
    7 true rfl ⟨by decide, by decide⟩ ⟨by decide, by decide⟩ rfl (by decide) rfl
